import Mathlib

/-!
Verification development for the publication point-system pipeline
(h-index, venue value, decayed citation scores, historical snapshots,
topic/researcher rollups).  Source artefacts are shallowly embedded as
Lean definitions; dates are modelled at day granularity.
-/

set_option maxHeartbeats 1000000
set_option maxRecDepth 8000

/-- A calendar date (UTC, day granularity).  Timestamps in the SQL are
compared at day granularity throughout the pipeline, so the time-of-day
component is dropped. -/
structure CivilDate where
  year : ℕ
  month : ℕ
  day : ℕ
deriving DecidableEq, Repr

/-- Chronological order on calendar dates (lexicographic). -/
def CivilDate.le (a b : CivilDate) : Prop :=
  a.year < b.year ∨
    (a.year = b.year ∧ (a.month < b.month ∨ (a.month = b.month ∧ a.day ≤ b.day)))

instance (a b : CivilDate) : Decidable (CivilDate.le a b) := by
  unfold CivilDate.le; infer_instance

theorem CivilDate.le_trans {a b c : CivilDate} (h1 : a.le b) (h2 : b.le c) :
    a.le c := by
  unfold CivilDate.le at *; omega

/-- Boolean form of the date order, used in filters (SQL `<=`). -/
def CivilDate.leB (a b : CivilDate) : Bool := decide (a.le b)

/-- SQL comparison `x <= D` where `x` may be NULL: a NULL date never
satisfies the comparison. -/
def optLeB (o : Option CivilDate) (D : CivilDate) : Bool :=
  match o with
  | some d => d.leB D
  | none => false

/-- Postgres `GREATEST` of two (non-null) dates. -/
def maxDate (a b : CivilDate) : CivilDate := if a.le b then b else a

/-- `timestamp - INTERVAL 'n years'` (Postgres preserves month and day). -/
def subYears (d : CivilDate) (n : ℕ) : CivilDate := ⟨d.year - n, d.month, d.day⟩

/-- Day 1 of the month of `d` (what `getConsistentDateForDB` stores). -/
def firstOfMonthC (d : CivilDate) : CivilDate := ⟨d.year, d.month, 1⟩

theorem firstOfMonthC_le (D : CivilDate) (h : 1 ≤ D.day) :
    (firstOfMonthC D).le D :=
  Or.inr ⟨rfl, Or.inr ⟨rfl, h⟩⟩

/-- Days since the civil epoch (Gregorian), for `y ≥ 1970`; this is the
day-count arithmetic underlying both the JS `Date` runtime and Postgres
`DATE_PART('day', a - b)`. -/
def daysFromCivil (y m d : ℕ) : ℕ :=
  let yAdj := if m ≤ 2 then y - 1 else y
  let era := yAdj / 400
  let yoe := yAdj % 400
  let mp := (m + 9) % 12
  let doy := (153 * mp + 2) / 5 + d - 1
  let doe := yoe * 365 + yoe / 4 - yoe / 100 + doy
  era * 146097 + doe - 719468

/-- Whole days from `b` up to `a` (`DATE_PART('day', a - b)::INT`),
possibly negative when `b` is later. -/
def daysBetween (a b : CivilDate) : ℤ :=
  (daysFromCivil a.year a.month a.day : ℤ) - (daysFromCivil b.year b.month b.day : ℤ)

/-- Full calendar months from `b` to `a`
(`EXTRACT(YEAR FROM AGE(a,b))*12 + EXTRACT(MONTH FROM AGE(a,b))`). -/
def monthsBetween (a b : CivilDate) : ℤ :=
  ((a.year : ℤ) - b.year) * 12 + ((a.month : ℤ) - b.month) -
    (if a.day < b.day then 1 else 0)

/-! ## Decay model (`scripts/seedDecayLookup.ts`) -/

/-- `HALF_LIFE` from the seeding script. -/
noncomputable def halfLifeDays : ℝ := 365.242374

/-- `Math.pow(0.5, days / HALF_LIFE)`: decay multiplier after `d` days. -/
noncomputable def decayFactor (d : ℕ) : ℝ :=
  (0.5 : ℝ) ^ ((d : ℝ) / halfLifeDays)

/-- The rows seeded into `DecayLookup`:
`Array.from({length: MAX_DAYS + 1}, (_, days) => ({days, decay_factor}))`. -/
noncomputable def seedEntries : List (ℕ × ℝ) :=
  (List.range (10000 + 1)).map (fun d => (d, decayFactor d))

/-- Joining `DecayLookup` on `days = z`: the factor for the matching row,
or no match when `z` is outside the seeded range (the score term is then
dropped by the surrounding `CASE`). -/
noncomputable def decayLookup (z : ℤ) : Option ℝ :=
  (seedEntries.find? (fun p => (p.1 : ℤ) == z)).map Prod.snd

theorem find_range_map {α : Type} (g : ℕ → α) (z : ℤ) (n : ℕ) :
    ((List.range n).map (fun i => ((i, g i) : ℕ × α))).find?
        (fun p => ((p.1 : ℤ) == z)) =
      if 0 ≤ z ∧ z < n then some (z.toNat, g z.toNat) else none := by
  induction n with
  | zero =>
    have h0 : ¬(0 ≤ z ∧ z < ((0 : ℕ) : ℤ)) := by omega
    simp only [List.range_zero, List.map_nil, List.find?_nil, if_neg h0]
  | succ n ih =>
    rw [List.range_succ, List.map_append, List.find?_append, ih]
    by_cases h1 : 0 ≤ z ∧ z < n
    · simp [h1]
      omega
    · simp only [h1, if_false, Option.none_orElse]
      by_cases h2 : 0 ≤ z ∧ z < (n + 1 : ℕ)
      · have hz : z = (n : ℤ) := by push_cast at h2 ⊢; omega
        rw [if_pos h2]
        simp [hz]
      · rw [if_neg h2]
        have hz : ¬ ((n : ℤ) == z) = true := by
          simp only [beq_iff_eq]
          intro h; subst h
          exact h2 ⟨Int.natCast_nonneg n, by push_cast; omega⟩
        simp [List.find?, hz]

theorem decayLookup_eq_of_le (d : ℕ) (h : d ≤ 10000) :
    decayLookup (d : ℤ) = some (decayFactor d) := by
  unfold decayLookup seedEntries
  rw [find_range_map]
  rw [if_pos ⟨Int.natCast_nonneg d, by push_cast; omega⟩]
  simp

theorem decayFactor_zero : decayFactor 0 = 1 := by
  unfold decayFactor
  norm_num

theorem decayFactor_antitone {d1 d2 : ℕ} (h : d1 ≤ d2) :
    decayFactor d2 ≤ decayFactor d1 := by
  unfold decayFactor
  have hl : (0 : ℝ) < halfLifeDays := by unfold halfLifeDays; norm_num
  have hd : (d1 : ℝ) ≤ (d2 : ℝ) := by exact_mod_cast h
  exact Real.rpow_le_rpow_of_exponent_ge (by norm_num) (by norm_num)
    ((div_le_div_iff_of_pos_right hl).mpr hd)

/-- C9: the seeded decay table defines `decayFactor(d) = 0.5 ^ (d / 365.242374)`
for every integer `d` in `[0, 10000]`; consequently `decayFactor(0) = 1`
and the factor is antitone in the day count over the seeded range. -/
theorem decay_table_spec :
    (∀ d : ℕ, d ≤ 10000 → decayLookup (d : ℤ) = some ((0.5 : ℝ) ^ ((d : ℝ) / 365.242374))) ∧
    decayFactor 0 = 1 ∧
    (∀ d1 d2 : ℕ, d1 < d2 → d2 ≤ 10000 → decayFactor d2 ≤ decayFactor d1) := by
  refine ⟨?_, decayFactor_zero, ?_⟩
  · intro d hd
    rw [decayLookup_eq_of_le d hd]
    rfl
  · intro d1 d2 h _
    exact decayFactor_antitone (Nat.le_of_lt h)

/-- Witness for `decay_table_spec` at concrete inputs. -/
theorem decay_table_spec_witness :
    decayLookup (3 : ℤ) = some ((0.5 : ℝ) ^ ((3 : ℝ) / 365.242374)) ∧
    decayFactor 7 ≤ decayFactor 2 :=
  ⟨decay_table_spec.1 3 (by norm_num),
   decay_table_spec.2.2 2 7 (by norm_num) (by norm_num)⟩

/-! ## Data model (`compass` schema rows used by the calculators) -/

/-- A row of `compass."Publication"` (fields the pipeline reads). -/
structure Publication where
  id : ℕ
  conference : Option ℕ
  reviewScore : Option ℚ
  datePublished : Option CivilDate
  citationCount : ℕ
deriving DecidableEq, Repr

/-- A row of `compass."Citation"`. -/
structure Citation where
  pubId : ℕ
  creationDate : Option CivilDate
  authorSc : Bool
deriving DecidableEq, Repr

/-- A row of `compass."User"` (fields the pipeline reads). -/
structure User where
  id : ℕ
  hIndex : ℕ
deriving DecidableEq, Repr

/-- A row of `compass."Event"` (a venue). -/
structure Event where
  lisperatorId : ℕ
  conferenceValue : ℝ

/-- The relational state read by the calculators.  `pubUsers` is the
`PublicationUser` bridge: `(publication_id, user_id)` pairs. -/
structure DB where
  users : List User
  events : List Event
  pubs : List Publication
  cits : List Citation
  pubUsers : List (ℕ × ℕ)

/-! ## Descending sort (`ORDER BY citation_count DESC`) -/

/-- Insert into a descending-sorted list, keeping it descending. -/
def insertDesc (a : ℕ) : List ℕ → List ℕ
  | [] => [a]
  | b :: t => if a ≤ b then b :: insertDesc a t else a :: b :: t

/-- Sort a list of citation counts in descending order. -/
def sortDesc : List ℕ → List ℕ
  | [] => []
  | a :: t => insertDesc a (sortDesc t)

theorem mem_insertDesc {x a : ℕ} : ∀ {l : List ℕ}, x ∈ insertDesc a l ↔ x = a ∨ x ∈ l := by
  intro l
  induction l with
  | nil => simp [insertDesc]
  | cons b t ih =>
    unfold insertDesc
    by_cases h : a ≤ b <;> simp [h, ih] <;> tauto

theorem mem_sortDesc {x : ℕ} : ∀ {l : List ℕ}, x ∈ sortDesc l ↔ x ∈ l := by
  intro l
  induction l with
  | nil => simp [sortDesc]
  | cons a t ih => simp [sortDesc, mem_insertDesc, ih]

theorem length_insertDesc (a : ℕ) : ∀ (l : List ℕ), (insertDesc a l).length = l.length + 1 := by
  intro l
  induction l with
  | nil => rfl
  | cons b t ih =>
    unfold insertDesc
    by_cases h : a ≤ b <;> simp [h, ih]

theorem length_sortDesc : ∀ (l : List ℕ), (sortDesc l).length = l.length := by
  intro l
  induction l with
  | nil => rfl
  | cons a t ih => simp [sortDesc, length_insertDesc, ih]

theorem headD_insertDesc (a : ℕ) : ∀ (l : List ℕ), (insertDesc a l).getD 0 0 = max a (l.getD 0 0) := by
  intro l
  cases l with
  | nil => simp [insertDesc]
  | cons b t =>
    unfold insertDesc
    by_cases h : a ≤ b <;> simp [h] <;> omega

theorem le_headD_sortDesc {x : ℕ} : ∀ {l : List ℕ}, x ∈ l → x ≤ (sortDesc l).getD 0 0 := by
  intro l
  induction l with
  | nil => intro h; cases h
  | cons a t ih =>
    intro h
    rw [sortDesc, headD_insertDesc]
    rcases List.mem_cons.mp h with h1 | h1
    · omega
    · have := ih h1; omega

/-! ## h-index (`calculateUserHIndex`, `src/lib/pointSystemCalculations`) -/

/-- Ranks `r` (1-based, from `ROW_NUMBER` over the descending sort) whose
publication satisfies `citation_count >= rank`. -/
def qualifyingRanks (sorted : List ℕ) : List ℕ :=
  (List.range sorted.length).filterMap
    (fun i => if i + 1 ≤ sorted.getD i 0 then some (i + 1) else none)

/-- `MAX(rank)` over qualifying ranks, then `LEAST(h_index, 100)`.
`none` when the user has no row in `HIndexPerUser` (no qualifying rank). -/
def hIndexOfCounts (counts : List ℕ) : Option ℕ :=
  (qualifyingRanks (sortDesc counts)).max?.map (fun h => min h 100)

/-- Citation counts of the publications bridged to user `uid`. -/
def userCitationCounts (db : DB) (uid : ℕ) : List ℕ :=
  (db.pubs.filter
    (fun p => db.pubUsers.any (fun pu => pu.1 == p.id && pu.2 == uid))).map
    Publication.citationCount

/-- The `UPDATE` applied to one `User` row: set the capped h-index when the
user appears in `HIndexPerUser`, otherwise leave the row untouched. -/
def hIndexStep (db : DB) (u : User) : User :=
  match hIndexOfCounts (userCitationCounts db u.id) with
  | some h => { u with hIndex := h }
  | none => u

/-- `calculateUserHIndex`: recompute h-indexes over the whole `User` table. -/
def calculateUserHIndex (db : DB) : List User :=
  db.users.map (hIndexStep db)

theorem mem_qualifyingRanks {sorted : List ℕ} {r : ℕ} :
    r ∈ qualifyingRanks sorted ↔
      ∃ i, i < sorted.length ∧ r = i + 1 ∧ i + 1 ≤ sorted.getD i 0 := by
  unfold qualifyingRanks
  simp only [List.mem_filterMap, List.mem_range]
  constructor
  · rintro ⟨i, hi, hr⟩
    by_cases h : i + 1 ≤ sorted.getD i 0
    · rw [if_pos h] at hr
      exact ⟨i, hi, (Option.some_inj.mp hr).symm, h⟩
    · rw [if_neg h] at hr; cases hr
  · rintro ⟨i, hi, hr, h⟩
    exact ⟨i, hi, by rw [if_pos h, hr]⟩

theorem hIndexOfCounts_eq_none_iff {counts : List ℕ} :
    hIndexOfCounts counts = none ↔ ∀ c ∈ counts, c = 0 := by
  unfold hIndexOfCounts
  rw [Option.map_eq_none', List.max?_eq_none_iff]
  constructor
  · intro h c hc
    by_contra hne
    have h1 : (1 : ℕ) ∈ qualifyingRanks (sortDesc counts) := by
      rw [mem_qualifyingRanks]
      refine ⟨0, ?_, rfl, ?_⟩
      · rw [length_sortDesc]
        exact List.length_pos_of_mem hc
      · have := le_headD_sortDesc hc
        omega
    rw [h] at h1
    cases h1
  · intro h
    rw [List.eq_nil_iff_forall_not_mem]
    intro r hr
    rw [mem_qualifyingRanks] at hr
    obtain ⟨i, hi, _, hq⟩ := hr
    have hmem : (sortDesc counts).getD i 0 ∈ sortDesc counts := by
      rw [List.getD_eq_getElem _ _ hi]
      exact List.getElem_mem hi
    have := h _ (mem_sortDesc.mp hmem)
    omega

/-- C2: the computed h-index is the largest rank `r` such that the `r`-th
ranked publication (counts sorted descending) has at least `r` citations,
capped at 100; counts `[10,8,5,4,3]` give 4, and 150 publications with 150
citations each give 100 rather than 150. -/
theorem h_index_spec :
    (∀ counts : List ℕ, hIndexOfCounts counts ≠ none →
      hIndexOfCounts counts =
        some (min (Nat.findGreatest
          (fun r => r ≤ (sortDesc counts).getD (r - 1) 0) counts.length) 100)) ∧
    hIndexOfCounts [10, 8, 5, 4, 3] = some 4 ∧
    hIndexOfCounts (List.replicate 150 150) = some 100 := by
  refine ⟨?_, by decide, by decide⟩
  intro counts hne
  unfold hIndexOfCounts at hne ⊢
  cases hmax : (qualifyingRanks (sortDesc counts)).max? with
  | none => rw [hmax] at hne; cases hne rfl
  | some m =>
    have hmem := List.max?_mem (fun a b => max_choice a b) hmax
    have hub : ∀ b ∈ qualifyingRanks (sortDesc counts), b ≤ m :=
      (List.max?_le_iff (fun a b c => max_le_iff) hmax).1 (Nat.le_refl m)
    rw [mem_qualifyingRanks] at hmem
    obtain ⟨i, hi, hm, hq⟩ := hmem
    have hlen : (sortDesc counts).length = counts.length := length_sortDesc counts
    have hfg : Nat.findGreatest
        (fun r => r ≤ (sortDesc counts).getD (r - 1) 0) counts.length = m := by
      rw [Nat.findGreatest_eq_iff]
      refine ⟨by omega, fun _ => by simpa [hm] using hq, ?_⟩
      intro k hk1 hk2 hPk
      have hkq : k ∈ qualifyingRanks (sortDesc counts) := by
        rw [mem_qualifyingRanks]
        refine ⟨k - 1, by omega, by omega, ?_⟩
        have : k - 1 + 1 = k := by omega
        rw [this]
        exact hPk
      have := hub k hkq
      omega
    rw [hfg]
    simp

/-- Witness for `h_index_spec` at a concrete counts list. -/
theorem h_index_spec_witness :
    hIndexOfCounts [3, 1] =
      some (min (Nat.findGreatest
        (fun r => r ≤ (sortDesc [3, 1]).getD (r - 1) 0) [3, 1].length) 100) :=
  h_index_spec.1 [3, 1] (by decide)

/-! ## Venue value (`calculateConferenceValue`) -/

/-- `SELECT DISTINCT` as executed on a concrete row list: each distinct
element retained once. -/
def distinctL {α : Type} [DecidableEq α] : List α → List α
  | [] => []
  | a :: t => if a ∈ t then distinctL t else a :: distinctL t

/-- `user_confs` joined to `User`: the distinct authors having a
publication in conference `cid`, as `User` rows. -/
def confUsers (db : DB) (cid : ℕ) : List User :=
  (distinctL
    ((db.pubs.filter (fun p => p.conference == some cid)).flatMap
      (fun p => (db.pubUsers.filter (fun pu => pu.1 == p.id)).map Prod.snd))).filterMap
    (fun uid => db.users.find? (fun u => u.id == uid))

/-- `AVG(u.h_index)` clamped by `LEAST(GREATEST(1, avg), 100)`; `none` when
the conference produced no author rows (no `UPDATE` for it). -/
noncomputable def confValueOf (db : DB) (cid : ℕ) : Option ℝ :=
  let us := confUsers db cid
  if us.isEmpty then none
  else some (min (max 1 ((us.map (fun u => (u.hIndex : ℝ))).sum / us.length)) 100)

/-- The `UPDATE` applied to one `Event` row by `calculateConferenceValue`. -/
noncomputable def confValueStep (db : DB) (e : Event) : Event :=
  match confValueOf db e.lisperatorId with
  | some v => { e with conferenceValue := v }
  | none => e

/-- `calculateConferenceValue`: recompute venue values over all events. -/
noncomputable def calculateConferenceValue (db : DB) : List Event :=
  db.events.map (confValueStep db)

/-- C10: `calculateUserHIndex` leaves untouched every user with no
publication whose citation count reaches its rank (in particular users whose
publications all have zero citations), and `calculateConferenceValue`
leaves untouched every venue with no qualifying publication: stale values
persist rather than being reset. -/
theorem stale_metrics_frame :
    (∀ (db : DB) (u : User),
      (∀ c ∈ userCitationCounts db u.id, c = 0) → hIndexStep db u = u) ∧
    (∀ (db : DB) (e : Event),
      (∀ p ∈ db.pubs, p.conference ≠ some e.lisperatorId) → confValueStep db e = e) := by
  constructor
  · intro db u h
    unfold hIndexStep
    rw [hIndexOfCounts_eq_none_iff.mpr h]
  · intro db e h
    unfold confValueStep confValueOf confUsers
    have hf : db.pubs.filter (fun p => p.conference == some e.lisperatorId) = [] := by
      rw [List.filter_eq_nil_iff]
      intro p hp
      simpa using h p hp
    rw [hf]
    simp [distinctL]

/-! ## Citation scores and decay (`calculateCitationScoresAndDecay`) -/

/-- `GREATEST(c.creation_date, COALESCE(p.date_published, CURRENT_DATE))`:
Postgres `GREATEST` ignores a NULL `creation_date`. -/
def citRefDate (dp : CivilDate) (c : Citation) : CivilDate :=
  match c.creationDate with
  | some cd => maxDate cd dp
  | none => dp

/-- One summand of `decayed_citations` for a citation row `c`, given venue
value `ev` and reference date `dp = COALESCE(p.date_published,
CURRENT_DATE)`.  The `CASE` yields 0 for self-citations and when
`DecayLookup` has no row for the elapsed days. -/
noncomputable def decayedCitationTerm (dl : ℤ → Option ℝ) (now : CivilDate) (ev : ℝ)
    (dp : CivilDate) (c : Citation) : ℝ :=
  match dl (daysBetween now (citRefDate dp c)) with
  | some f => if c.authorSc then 0 else ev / 5 * f
  | none => 0

/-- `citation_scores.decayed_citations`: sum of the decayed-citation terms
over the citation rows joined to publication `pid`. -/
noncomputable def decayedCitationsList (dl : ℤ → Option ℝ) (now : CivilDate) (ev : ℝ)
    (dp : CivilDate) (pid : ℕ) (cits : List Citation) : ℝ :=
  ((cits.filter (fun c => c.pubId == pid)).map (decayedCitationTerm dl now ev dp)).sum

/-- `GREATEST(1, LEAST(COALESCE(review_score, 1), 5))`. -/
def clampReview (r : Option ℚ) : ℚ := max 1 (min (r.getD 1) 5)

/-- The `UPDATE ... SET overall_score` of `calculateCitationScoresAndDecay`
for one publication: it fires only when the publication's venue exists and
the publication age has a `DecayLookup` row, and then stores
`base * decay + decayed_citations`. -/
noncomputable def newOverallScore (dl : ℤ → Option ℝ) (now : CivilDate) (db : DB)
    (p : Publication) : Option ℝ :=
  match p.conference.bind (fun cid => db.events.find? (fun e => e.lisperatorId == cid)) with
  | none => none
  | some e =>
    match dl (daysBetween now (p.datePublished.getD now)) with
    | none => none
    | some f =>
        some (((clampReview p.reviewScore : ℝ)) * e.conferenceValue * f +
          decayedCitationsList dl now e.conferenceValue (p.datePublished.getD now) p.id db.cits)

/-- Citation bonus as the specification words it: over the publication's
non-self citations whose elapsed days (from the later of citation date and
publication date) match a decay row, add `(venueValue / 5) * decayFactor`. -/
noncomputable def specCitationBonus (dl : ℤ → Option ℝ) (now : CivilDate) (venueValue : ℝ)
    (p : Publication) (cits : List Citation) : ℝ :=
  (((cits.filter (fun c => c.pubId == p.id && !c.authorSc)).filterMap
      (fun c => c.creationDate.bind
        (fun cd => dl (daysBetween now (maxDate cd (p.datePublished.getD now)))))).map
    (fun f => venueValue / 5 * f)).sum

theorem decayedCitationTerm_self (dl : ℤ → Option ℝ) (now : CivilDate) (ev : ℝ)
    (dp : CivilDate) (c : Citation) (hs : c.authorSc = true) :
    decayedCitationTerm dl now ev dp c = 0 := by
  unfold decayedCitationTerm
  cases dl (daysBetween now (citRefDate dp c)) <;> simp [hs]

theorem decayedCitationTerm_eq (dl : ℤ → Option ℝ) (now : CivilDate) (ev : ℝ)
    (dp : CivilDate) (c : Citation) (cd : CivilDate)
    (hcd : c.creationDate = some cd) (hsc : c.authorSc = false) :
    decayedCitationTerm dl now ev dp c =
      (match dl (daysBetween now (maxDate cd dp)) with
       | some f => ev / 5 * f
       | none => 0) := by
  unfold decayedCitationTerm citRefDate
  rw [hcd]
  cases dl (daysBetween now (maxDate cd dp)) <;> simp [hsc]

theorem decayedCitations_eq_spec (dl : ℤ → Option ℝ) (now : CivilDate) (ev : ℝ)
    (p : Publication) (cits : List Citation)
    (h : ∀ c ∈ cits, c.pubId = p.id → c.creationDate ≠ none) :
    decayedCitationsList dl now ev (p.datePublished.getD now) p.id cits =
      specCitationBonus dl now ev p cits := by
  induction cits with
  | nil => rfl
  | cons c t ih =>
    have ht : ∀ c ∈ t, c.pubId = p.id → c.creationDate ≠ none := by
      intro x hx
      exact h x (List.mem_cons_of_mem c hx)
    have iht := ih ht
    unfold decayedCitationsList specCitationBonus at iht ⊢
    by_cases hp : c.pubId = p.id
    · by_cases hs : c.authorSc = true
      · rw [List.filter_cons_of_pos (by simp [hp]),
          List.filter_cons_of_neg (by simp [hs])]
        simp only [List.map_cons, List.sum_cons]
        rw [decayedCitationTerm_self _ _ _ _ _ hs, iht]
        ring
      · have hsc : c.authorSc = false := by revert hs; cases c.authorSc <;> simp
        obtain ⟨cd, hcd⟩ : ∃ cd, c.creationDate = some cd := by
          cases hcc : c.creationDate with
          | none => exact absurd hcc (h c (List.mem_cons_self c t) hp)
          | some cd => exact ⟨cd, rfl⟩
        rw [List.filter_cons_of_pos (by simp [hp]),
          List.filter_cons_of_pos (by simp [hp, hsc])]
        simp only [List.map_cons, List.sum_cons, List.filterMap_cons, hcd,
          Option.some_bind]
        rw [decayedCitationTerm_eq _ _ _ _ _ _ hcd hsc]
        cases hdl : dl (daysBetween now (maxDate cd (p.datePublished.getD now))) with
        | none =>
          rw [iht]
          ring
        | some f =>
          simp only [List.map_cons, List.sum_cons]
          rw [iht]
    · rw [List.filter_cons_of_neg (by simp [hp]),
        List.filter_cons_of_neg (by simp [hp])]
      exact iht

/-- Reference date for the end-to-end example (a Monday). -/
def exDate : CivilDate := ⟨2025, 5, 26⟩

/-- End-to-end example state: one venue (id 10) whose two authors have
h-indexes 2 and 4, one publication with review score 4.5 published on the
reference date, and two non-self citations created the same day. -/
noncomputable def exDB : DB where
  users := [⟨1, 2⟩, ⟨2, 4⟩]
  events := [⟨10, 0⟩]
  pubs := [⟨1, some 10, some (9 / 2 : ℚ), some exDate, 2⟩]
  cits := [⟨1, some exDate, false⟩, ⟨1, some exDate, false⟩]
  pubUsers := [(1, 1), (1, 2)]

/-- C1: for a publication with a venue and a decay-lookup match, the
recomputed overall score is `clamp(review,1,5) * venueValue * decay(age)`
plus, over its dated non-self citations with a decay match,
`(venueValue/5) * decay(daysSince(max(citationDate, datePublished)))`; in
the end-to-end example (venue value 3 from author h-indexes 2 and 4,
review 4.5, age 0, two fresh citations) the stored score is 14.7. -/
theorem overall_score_formula :
    (∀ (dl : ℤ → Option ℝ) (now : CivilDate) (db : DB) (p : Publication)
        (cid : ℕ) (e : Event) (f : ℝ),
      p.conference = some cid →
      db.events.find? (fun ev => ev.lisperatorId == cid) = some e →
      dl (daysBetween now (p.datePublished.getD now)) = some f →
      (∀ c ∈ db.cits, c.pubId = p.id → c.creationDate ≠ none) →
      newOverallScore dl now db p =
        some ((clampReview p.reviewScore : ℝ) * e.conferenceValue * f +
          specCitationBonus dl now e.conferenceValue p db.cits)) ∧
    newOverallScore decayLookup exDate
        { exDB with events := calculateConferenceValue exDB }
        ⟨1, some 10, some (9 / 2 : ℚ), some exDate, 2⟩ = some 14.7 := by
  constructor
  · intro dl now db p cid e f hconf hfind hdl hdates
    unfold newOverallScore
    rw [hconf, Option.some_bind, hfind, hdl]
    dsimp only
    rw [decayedCitations_eq_spec dl now e.conferenceValue p db.cits hdates]
  · have h0 : daysBetween exDate exDate = (0 : ℤ) := by simp [daysBetween]
    have hdl0 : decayLookup (0 : ℤ) = some 1 := by
      have h := decayLookup_eq_of_le 0 (by norm_num)
      rw [decayFactor_zero] at h
      simpa using h
    have hmax : maxDate exDate exDate = exDate := by
      simp [maxDate]
    have hcv : calculateConferenceValue exDB = [⟨10, (3 : ℝ)⟩] := by
      simp only [calculateConferenceValue, confValueStep, confValueOf, confUsers, exDB,
        distinctL, List.filter, List.flatMap, List.map, List.filterMap, List.find?,
        List.isEmpty, List.length, List.sum_cons, List.sum_nil]
      norm_num
    rw [hcv]
    simp only [newOverallScore, exDB, Option.some_bind, List.find?, clampReview,
      decayedCitationsList, decayedCitationTerm, citRefDate, hmax, List.filter,
      List.map, Option.getD_some, h0, hdl0, List.sum_cons, List.sum_nil]
    norm_num

theorem daysBetween_self (d : CivilDate) : daysBetween d d = 0 := by
  simp [daysBetween]

theorem decayLookup_zero : decayLookup 0 = some 1 := by
  have h := decayLookup_eq_of_le 0 (by norm_num)
  rw [decayFactor_zero] at h
  simpa using h

/-- Witness for `overall_score_formula` at the end-to-end example state. -/
theorem overall_score_formula_witness :
    newOverallScore decayLookup exDate { exDB with events := [⟨10, (3 : ℝ)⟩] }
        ⟨1, some 10, some (9 / 2 : ℚ), some exDate, 2⟩ =
      some ((clampReview (some (9 / 2 : ℚ)) : ℝ) * (Event.mk 10 (3 : ℝ)).conferenceValue * 1 +
        specCitationBonus decayLookup exDate (Event.mk 10 (3 : ℝ)).conferenceValue
          ⟨1, some 10, some (9 / 2 : ℚ), some exDate, 2⟩
          ({ exDB with events := [⟨10, (3 : ℝ)⟩] } : DB).cits) :=
  overall_score_formula.1 decayLookup exDate _ _ 10 ⟨10, (3 : ℝ)⟩ 1 rfl
    (by simp [List.find?])
    (by
      show decayLookup (daysBetween exDate exDate) = some 1
      rw [daysBetween_self]
      exact decayLookup_zero)
    (by
      intro c hc
      simp only [exDB, List.mem_cons, List.not_mem_nil, or_false] at hc
      rcases hc with h | h <;> rw [h] <;> simp)

/-! ## Historical reconstruction (the historically accurate snapshot module) -/

theorem optLeB_mono {o : Option CivilDate} {c D : CivilDate}
    (h : optLeB o c = true) (hcD : c.le D) : optLeB o D = true := by
  cases o with
  | none => cases h
  | some d =>
    unfold optLeB CivilDate.leB at h ⊢
    rw [decide_eq_true_iff] at h ⊢
    exact CivilDate.le_trans h hcD

/-- Two row lists agreeing on a filter also agree on any stronger filter. -/
theorem filter_subpred_eq {α : Type} {p q : α → Bool} {l1 l2 : List α}
    (himp : ∀ x, p x = true → q x = true)
    (h : l1.filter q = l2.filter q) : l1.filter p = l2.filter p := by
  have key : ∀ l : List α, l.filter p = (l.filter q).filter p := by
    intro l
    rw [List.filter_filter]
    apply List.filter_congr
    intro x _
    cases hx : p x
    · simp
    · simp [himp x hx]
  rw [key l1, key l2, h]

/-- Sums of a summand vanishing outside `q` agree across two row lists that
agree on the `q`-filtered rows, whatever join filter `pd` selects them. -/
theorem sum_filter_eq_of_vanish {α : Type} (g : α → ℝ) (pd q : α → Bool)
    {l1 l2 : List α} (h : l1.filter q = l2.filter q)
    (hv : ∀ x, q x = false → g x = 0) :
    ((l1.filter pd).map g).sum = ((l2.filter pd).map g).sum := by
  have key : ∀ l : List α,
      ((l.filter pd).map g).sum = ((l.filter (fun a => pd a && q a)).map g).sum := by
    intro l
    induction l with
    | nil => rfl
    | cons a t ih =>
      rw [List.filter_cons, List.filter_cons]
      cases hpd : pd a
      · simpa using ih
      · cases hq : q a
        · rw [if_pos (by simp), if_neg (by simp)]
          simp only [List.map_cons, List.sum_cons, hv a hq, ih]
          ring
        · rw [if_pos (by simp), if_pos (by simp)]
          simp only [List.map_cons, List.sum_cons, ih]
  have hrw : l1.filter (fun a => pd a && q a) = l2.filter (fun a => pd a && q a) :=
    filter_subpred_eq (fun x hx => by
      rcases Bool.and_eq_true_iff.mp hx with ⟨_, h2⟩
      exact h2) h
  rw [key l1, key l2, hrw]

/-- Publications existing at date `D` (`p.date_published <= D`; rows with a
NULL publication date never pass the SQL comparison). -/
def pubsAt (D : CivilDate) (pubs : List Publication) : List Publication :=
  pubs.filter (fun p => optLeB p.datePublished D)

/-- `HistoricalCitationCounts`: non-self citations of `pid` created on or
before `D` (`DATE_TRUNC('day', D)` coincides with `D` at day granularity). -/
def histCitationCount (D : CivilDate) (cits : List Citation) (pid : ℕ) : ℕ :=
  (cits.filter
    (fun c => c.pubId == pid && !c.authorSc && optLeB c.creationDate D)).length

/-- Historical citation counts of the publications of user `uid` that
existed at `D` (`RankedPublications` restricted to `date_published <= D`). -/
def histUserCounts (D : CivilDate) (db : DB) (uid : ℕ) : List ℕ :=
  ((pubsAt D db.pubs).filter
    (fun p => db.pubUsers.any (fun pu => pu.1 == p.id && pu.2 == uid))).map
    (fun p => histCitationCount D db.cits p.id)

/-- `historical_h_index` row for `uid` (`LEAST(COALESCE(h_index,0),100)`),
`none` when the user has no qualifying rank at `D`. -/
def histHIndex (D : CivilDate) (db : DB) (uid : ℕ) : Option ℕ :=
  hIndexOfCounts (histUserCounts D db uid)

/-- `historical_user_confs`: distinct author ids of venue `cid` over the
publications existing at `D`. -/
def histConfUserIds (D : CivilDate) (db : DB) (cid : ℕ) : List ℕ :=
  distinctL
    (((pubsAt D db.pubs).filter (fun p => p.conference == some cid)).flatMap
      (fun p => (db.pubUsers.filter (fun pu => pu.1 == p.id)).map Prod.snd))

/-- `historical_conference_value` for `cid`:
`LEAST(GREATEST(1, AVG(COALESCE(h_index, 0))), 100)` over the venue's
distinct authors at `D`; `none` when the venue has no author pair at `D`. -/
noncomputable def histConfValue (D : CivilDate) (db : DB) (cid : ℕ) : Option ℝ :=
  let uids := histConfUserIds D db cid
  if uids.isEmpty then none
  else
    some (min (max 1
      ((uids.map (fun uid => (((histHIndex D db uid).getD 0 : ℕ) : ℝ))).sum / uids.length)) 100)

/-- `historical_base_score` of a publication existing at `D`:
`clamp(review) * COALESCE(historical conference value, 1)`. -/
noncomputable def histBaseScore (D : CivilDate) (db : DB) (p : Publication) : Option ℝ :=
  if optLeB p.datePublished D then
    some ((clampReview p.reviewScore : ℝ) *
      ((p.conference.bind (histConfValue D db)).getD 1))
  else none

/-- One summand of `historical_citation_scores`: the `CASE` requires a
non-self citation created by `consistentDate` (first of `D`'s month) whose
age, seen from `D`, has a decay row; the venue value is the historical one
and a NULL venue value contributes nothing to the sum. -/
noncomputable def histCitTerm (dl : ℤ → Option ℝ) (D : CivilDate) (cv : Option ℝ)
    (dp : CivilDate) (c : Citation) : ℝ :=
  match c.creationDate, cv with
  | some cd, some v =>
    if !c.authorSc && cd.leB (firstOfMonthC D) then
      match dl (daysBetween D (maxDate cd dp)) with
      | some f => v / 5 * f
      | none => 0
    else 0
  | _, _ => 0

/-- `historical_citation_scores.decayed_citations` for `p`, present when
`p.date_published <= consistentDate`. -/
noncomputable def histCitScore (dl : ℤ → Option ℝ) (D : CivilDate) (db : DB)
    (p : Publication) : Option ℝ :=
  if optLeB p.datePublished (firstOfMonthC D) then
    some (((db.cits.filter (fun c => c.pubId == p.id)).map
      (histCitTerm dl D (p.conference.bind (histConfValue D db))
        (p.datePublished.getD D))).sum)
  else none

/-- `historical_overall_scores.overall_score` for `p` at `D`:
`base * decay(age from D) + COALESCE(citation score, 0)`, NULL when the
publication age has no decay row. -/
noncomputable def histOverall (dl : ℤ → Option ℝ) (D : CivilDate) (db : DB)
    (p : Publication) : Option ℝ :=
  if optLeB p.datePublished D then
    (histBaseScore D db p).bind (fun b =>
      (dl (daysBetween D (p.datePublished.getD D))).map (fun f =>
        b * f + ((histCitScore dl D db p).getD 0)))
  else none

theorem histCitationCount_eq (D : CivilDate) {db1 db2 : DB}
    (hcits : db1.cits.filter (fun c => optLeB c.creationDate D) =
      db2.cits.filter (fun c => optLeB c.creationDate D)) :
    ∀ pid, histCitationCount D db1.cits pid = histCitationCount D db2.cits pid := by
  intro pid
  unfold histCitationCount
  refine congrArg List.length (filter_subpred_eq ?_ hcits)
  intro x hx
  simp only [Bool.and_eq_true] at hx
  exact hx.2

theorem histHIndex_eq (D : CivilDate) {db1 db2 : DB}
    (hpubs : db1.pubs.filter (fun p => optLeB p.datePublished D) =
      db2.pubs.filter (fun p => optLeB p.datePublished D))
    (hcits : db1.cits.filter (fun c => optLeB c.creationDate D) =
      db2.cits.filter (fun c => optLeB c.creationDate D))
    (hpu : db1.pubUsers = db2.pubUsers) :
    ∀ uid, histHIndex D db1 uid = histHIndex D db2 uid := by
  intro uid
  unfold histHIndex histUserCounts pubsAt
  rw [hpubs, hpu]
  refine congrArg hIndexOfCounts (List.map_congr_left ?_)
  intro p _
  exact histCitationCount_eq D hcits p.id

theorem histConfValue_eq (D : CivilDate) {db1 db2 : DB}
    (hpubs : db1.pubs.filter (fun p => optLeB p.datePublished D) =
      db2.pubs.filter (fun p => optLeB p.datePublished D))
    (hcits : db1.cits.filter (fun c => optLeB c.creationDate D) =
      db2.cits.filter (fun c => optLeB c.creationDate D))
    (hpu : db1.pubUsers = db2.pubUsers) :
    ∀ cid, histConfValue D db1 cid = histConfValue D db2 cid := by
  intro cid
  have huids : histConfUserIds D db1 cid = histConfUserIds D db2 cid := by
    unfold histConfUserIds pubsAt
    rw [hpubs, hpu]
  unfold histConfValue
  rw [huids]
  by_cases he : (histConfUserIds D db2 cid).isEmpty = true
  · simp [he]
  · simp only [he, if_false]
    have hmap : (histConfUserIds D db2 cid).map
        (fun uid => (((histHIndex D db1 uid).getD 0 : ℕ) : ℝ)) =
        (histConfUserIds D db2 cid).map
        (fun uid => (((histHIndex D db2 uid).getD 0 : ℕ) : ℝ)) := by
      refine List.map_congr_left ?_
      intro uid _
      rw [histHIndex_eq D hpubs hcits hpu uid]
    rw [hmap]

theorem histBaseScore_eq (D : CivilDate) {db1 db2 : DB}
    (hpubs : db1.pubs.filter (fun p => optLeB p.datePublished D) =
      db2.pubs.filter (fun p => optLeB p.datePublished D))
    (hcits : db1.cits.filter (fun c => optLeB c.creationDate D) =
      db2.cits.filter (fun c => optLeB c.creationDate D))
    (hpu : db1.pubUsers = db2.pubUsers) :
    ∀ p, histBaseScore D db1 p = histBaseScore D db2 p := by
  intro p
  unfold histBaseScore
  cases hc : p.conference with
  | none => rfl
  | some cid =>
    simp only [hc, Option.some_bind, histConfValue_eq D hpubs hcits hpu cid]

theorem histCitTerm_vanish (dl : ℤ → Option ℝ) (D : CivilDate) (hD : 1 ≤ D.day)
    (cv : Option ℝ) (dp : CivilDate) (c : Citation)
    (h : optLeB c.creationDate D = false) :
    histCitTerm dl D cv dp c = 0 := by
  unfold histCitTerm
  cases hcc : c.creationDate with
  | none => cases cv <;> rfl
  | some cd =>
    cases cv with
    | none => rfl
    | some v =>
      have hfo : cd.leB (firstOfMonthC D) = false := by
        cases hfo : cd.leB (firstOfMonthC D)
        · rfl
        · exfalso
          have h1 : cd.le (firstOfMonthC D) := by
            have := hfo
            unfold CivilDate.leB at this
            exact of_decide_eq_true this
          have h2 : cd.le D := CivilDate.le_trans h1 (firstOfMonthC_le D hD)
          rw [hcc] at h
          unfold optLeB CivilDate.leB at h
          rw [decide_eq_false_iff_not] at h
          exact h h2
      simp [hfo]

theorem histCitScore_eq (dl : ℤ → Option ℝ) (D : CivilDate) (hD : 1 ≤ D.day)
    {db1 db2 : DB}
    (hpubs : db1.pubs.filter (fun p => optLeB p.datePublished D) =
      db2.pubs.filter (fun p => optLeB p.datePublished D))
    (hcits : db1.cits.filter (fun c => optLeB c.creationDate D) =
      db2.cits.filter (fun c => optLeB c.creationDate D))
    (hpu : db1.pubUsers = db2.pubUsers) :
    ∀ p, histCitScore dl D db1 p = histCitScore dl D db2 p := by
  intro p
  have hcv : p.conference.bind (histConfValue D db1) =
      p.conference.bind (histConfValue D db2) := by
    cases hc : p.conference with
    | none => rfl
    | some cid =>
      simp only [Option.some_bind]
      exact histConfValue_eq D hpubs hcits hpu cid
  unfold histCitScore
  rw [hcv]
  by_cases hd : optLeB p.datePublished (firstOfMonthC D) = true
  · rw [if_pos hd, if_pos hd]
    refine congrArg some ?_
    exact sum_filter_eq_of_vanish _ _ (fun c => optLeB c.creationDate D) hcits
      (fun c hce => histCitTerm_vanish dl D hD _ _ c hce)
  · rw [if_neg hd, if_neg hd]

theorem histOverall_eq (dl : ℤ → Option ℝ) (D : CivilDate) (hD : 1 ≤ D.day)
    {db1 db2 : DB}
    (hpubs : db1.pubs.filter (fun p => optLeB p.datePublished D) =
      db2.pubs.filter (fun p => optLeB p.datePublished D))
    (hcits : db1.cits.filter (fun c => optLeB c.creationDate D) =
      db2.cits.filter (fun c => optLeB c.creationDate D))
    (hpu : db1.pubUsers = db2.pubUsers) :
    ∀ p, histOverall dl D db1 p = histOverall dl D db2 p := by
  intro p
  unfold histOverall
  rw [histBaseScore_eq D hpubs hcits hpu p, histCitScore_eq dl D hD hpubs hcits hpu p]

/-- C3: the reconstructed metrics for a historical date `D` (h-index,
venue value, base score, citation score, overall score) depend only on
citations created on or before `D` and publications published on or before
`D` (plus the undated author-bridge rows): two database states agreeing on
those facts yield identical reconstructions, so facts dated after `D`
never leak into the snapshot for `D`. -/
theorem no_lookahead (dl : ℤ → Option ℝ) (D : CivilDate) (hD : 1 ≤ D.day)
    (db1 db2 : DB)
    (hpubs : db1.pubs.filter (fun p => optLeB p.datePublished D) =
      db2.pubs.filter (fun p => optLeB p.datePublished D))
    (hcits : db1.cits.filter (fun c => optLeB c.creationDate D) =
      db2.cits.filter (fun c => optLeB c.creationDate D))
    (hpu : db1.pubUsers = db2.pubUsers) :
    (∀ uid, histHIndex D db1 uid = histHIndex D db2 uid) ∧
    (∀ cid, histConfValue D db1 cid = histConfValue D db2 cid) ∧
    (∀ p, histBaseScore D db1 p = histBaseScore D db2 p) ∧
    (∀ p, histCitScore dl D db1 p = histCitScore dl D db2 p) ∧
    (∀ p, histOverall dl D db1 p = histOverall dl D db2 p) :=
  ⟨histHIndex_eq D hpubs hcits hpu,
   histConfValue_eq D hpubs hcits hpu,
   histBaseScore_eq D hpubs hcits hpu,
   histCitScore_eq dl D hD hpubs hcits hpu,
   histOverall_eq dl D hD hpubs hcits hpu⟩

/-- Witness for `no_lookahead`: adding a citation dated after `D` leaves
every reconstructed metric for `D` unchanged. -/
theorem no_lookahead_witness :
    (∀ uid, histHIndex ⟨2020, 6, 15⟩
        ⟨[], [], [⟨1, some 5, some 3, some ⟨2020, 1, 1⟩, 1⟩],
          [⟨1, some ⟨2020, 3, 1⟩, false⟩, ⟨1, some ⟨2021, 1, 1⟩, false⟩], [(1, 1)]⟩ uid =
      histHIndex ⟨2020, 6, 15⟩
        ⟨[], [], [⟨1, some 5, some 3, some ⟨2020, 1, 1⟩, 1⟩],
          [⟨1, some ⟨2020, 3, 1⟩, false⟩], [(1, 1)]⟩ uid) ∧
    (∀ cid, histConfValue ⟨2020, 6, 15⟩
        ⟨[], [], [⟨1, some 5, some 3, some ⟨2020, 1, 1⟩, 1⟩],
          [⟨1, some ⟨2020, 3, 1⟩, false⟩, ⟨1, some ⟨2021, 1, 1⟩, false⟩], [(1, 1)]⟩ cid =
      histConfValue ⟨2020, 6, 15⟩
        ⟨[], [], [⟨1, some 5, some 3, some ⟨2020, 1, 1⟩, 1⟩],
          [⟨1, some ⟨2020, 3, 1⟩, false⟩], [(1, 1)]⟩ cid) ∧
    (∀ p, histBaseScore ⟨2020, 6, 15⟩
        ⟨[], [], [⟨1, some 5, some 3, some ⟨2020, 1, 1⟩, 1⟩],
          [⟨1, some ⟨2020, 3, 1⟩, false⟩, ⟨1, some ⟨2021, 1, 1⟩, false⟩], [(1, 1)]⟩ p =
      histBaseScore ⟨2020, 6, 15⟩
        ⟨[], [], [⟨1, some 5, some 3, some ⟨2020, 1, 1⟩, 1⟩],
          [⟨1, some ⟨2020, 3, 1⟩, false⟩], [(1, 1)]⟩ p) ∧
    (∀ p, histCitScore decayLookup ⟨2020, 6, 15⟩
        ⟨[], [], [⟨1, some 5, some 3, some ⟨2020, 1, 1⟩, 1⟩],
          [⟨1, some ⟨2020, 3, 1⟩, false⟩, ⟨1, some ⟨2021, 1, 1⟩, false⟩], [(1, 1)]⟩ p =
      histCitScore decayLookup ⟨2020, 6, 15⟩
        ⟨[], [], [⟨1, some 5, some 3, some ⟨2020, 1, 1⟩, 1⟩],
          [⟨1, some ⟨2020, 3, 1⟩, false⟩], [(1, 1)]⟩ p) ∧
    (∀ p, histOverall decayLookup ⟨2020, 6, 15⟩
        ⟨[], [], [⟨1, some 5, some 3, some ⟨2020, 1, 1⟩, 1⟩],
          [⟨1, some ⟨2020, 3, 1⟩, false⟩, ⟨1, some ⟨2021, 1, 1⟩, false⟩], [(1, 1)]⟩ p =
      histOverall decayLookup ⟨2020, 6, 15⟩
        ⟨[], [], [⟨1, some 5, some 3, some ⟨2020, 1, 1⟩, 1⟩],
          [⟨1, some ⟨2020, 3, 1⟩, false⟩], [(1, 1)]⟩ p) :=
  no_lookahead decayLookup ⟨2020, 6, 15⟩ (by decide) _ _ (by decide) (by decide) rfl

/-! ## Topic rollup (`calculateSimpleTopicAverages`) -/

theorem mem_distinctL {α : Type} [DecidableEq α] {x : α} :
    ∀ {l : List α}, x ∈ distinctL l ↔ x ∈ l := by
  intro l
  induction l with
  | nil => simp [distinctL]
  | cons a t ih =>
    unfold distinctL
    by_cases h : a ∈ t
    · rw [if_pos h, ih]
      constructor
      · exact fun hx => List.mem_cons_of_mem a hx
      · intro hx
        rcases List.mem_cons.mp hx with rfl | hx
        · exact h
        · exact hx
    · rw [if_neg h]
      simp [ih]

/-- `RECENT_BONUS` weighting of `calculateSimpleTopicAverages`: ×1.5 when
`date_published >= consistentDate - INTERVAL '2 years'`, else ×0.2 (a NULL
date falls to the `ELSE`). -/
noncomputable def recencyWeight (ref : CivilDate) (dp : Option CivilDate) : ℝ :=
  match dp with
  | some d => if (subYears ref 2).le d then 1.5 else 0.2
  | none => 0.2

/-- `HIGH_SCORE_BONUS` weighting: ×2 when `ps.value >= 5.0`, else ×0.5. -/
noncomputable def qualityWeight (s : ℝ) : ℝ := if 5 ≤ s then 2 else 0.5

/-- Volume bonus of `publication_counts` (exclusive thresholds). -/
noncomputable def volumeBonus (n : ℕ) : ℝ :=
  if 100 < n then 1.5 else if 50 < n then 1.3 else if 10 < n then 1.1 else 1

/-- One row of `weighted_publications`. -/
structure TopicRow where
  pid : ℕ
  tid : ℕ
  score : ℝ
  recencyW : ℝ
  qualityW : ℝ

/-- `weighted_publications`: the topic-bridge rows joined to `Publication`
and to the publication snapshot at the chosen snapshot date, with their
recency and quality weights. -/
noncomputable def weightedTopicRows (ref : CivilDate) (pubs : List Publication)
    (snaps : List (ℕ × ℝ)) (pubTopics : List (ℕ × ℕ)) : List TopicRow :=
  pubTopics.filterMap (fun pt =>
    (pubs.find? (fun p => p.id == pt.1)).bind (fun p =>
      (snaps.find? (fun s => s.1 == pt.1)).map (fun s =>
        { pid := pt.1, tid := pt.2, score := s.2,
          recencyW := recencyWeight ref p.datePublished,
          qualityW := qualityWeight s.2 })))

/-- The rows of topic `t` (`GROUP BY topic_id`). -/
noncomputable def rowsFor (rows : List TopicRow) (t : ℕ) : List TopicRow :=
  rows.filter (fun r => r.tid == t)

/-- `topic_scores` value for a topic: weighted average times volume bonus. -/
noncomputable def topicValue (rows : List TopicRow) (t : ℕ) : ℝ :=
  ((rowsFor rows t).map (fun r => r.score * r.recencyW * r.qualityW)).sum /
    ((rowsFor rows t).map (fun r => r.recencyW * r.qualityW)).sum *
    volumeBonus (rowsFor rows t).length

/-- The `TopicSnapshot` rows inserted for the date: one per topic present
in `weighted_publications`. -/
noncomputable def topicSnapshotRows (ref : CivilDate) (pubs : List Publication)
    (snaps : List (ℕ × ℝ)) (pubTopics : List (ℕ × ℕ)) : List (ℕ × ℝ) :=
  let rows := weightedTopicRows ref pubs snaps pubTopics
  (distinctL (rows.map TopicRow.tid)).map (fun t => (t, topicValue rows t))

theorem lookup_map_key {α : Type} (f : ℕ → α) {l : List ℕ} {t : ℕ} (h : t ∈ l) :
    List.lookup t (l.map (fun x => (x, f x))) = some (f t) := by
  induction l with
  | nil => cases h
  | cons a r ih =>
    rcases List.mem_cons.mp h with rfl | hx
    · simp [List.lookup]
    · by_cases ha : a = t
      · subst ha; simp [List.lookup]
      · have hb : (t == a) = false := by
          rw [beq_eq_false_iff_ne]
          exact fun hh => ha hh.symm
        simp only [List.map_cons, List.lookup, hb]
        exact ih hx

theorem lookup_map_key_none {α : Type} (f : ℕ → α) {l : List ℕ} {t : ℕ} (h : t ∉ l) :
    List.lookup t (l.map (fun x => (x, f x))) = none := by
  induction l with
  | nil => rfl
  | cons a r ih =>
    have ha : a ≠ t := fun hh => h (hh ▸ List.mem_cons_self a r)
    have hb : (t == a) = false := by
      rw [beq_eq_false_iff_ne]
      exact fun hh => ha hh.symm
    simp only [List.map_cons, List.lookup, hb]
    exact ih (fun hx => h (List.mem_cons_of_mem a hx))

/-- C6: for every topic with at least one publication row at the snapshot
date, the stored topic value is the recency-and-quality weighted mean of
its publications' snapshot scores times the volume bonus with exclusive
thresholds (101 rows → ×1.5, 100 rows → ×1.3), and topics with no rows get
no `TopicSnapshot` row; every row's weights come from the publication's
recency and the score's quality bucket. -/
theorem topic_rollup_spec :
    (∀ (ref : CivilDate) (pubs : List Publication) (snaps : List (ℕ × ℝ))
        (pts : List (ℕ × ℕ)) (t : ℕ),
      rowsFor (weightedTopicRows ref pubs snaps pts) t ≠ [] →
      List.lookup t (topicSnapshotRows ref pubs snaps pts) =
        some (((rowsFor (weightedTopicRows ref pubs snaps pts) t).map
            (fun r => r.score * r.recencyW * r.qualityW)).sum /
          ((rowsFor (weightedTopicRows ref pubs snaps pts) t).map
            (fun r => r.recencyW * r.qualityW)).sum *
          volumeBonus (rowsFor (weightedTopicRows ref pubs snaps pts) t).length)) ∧
    volumeBonus 101 = 1.5 ∧
    volumeBonus 100 = 1.3 ∧
    (∀ (ref : CivilDate) (pubs : List Publication) (snaps : List (ℕ × ℝ))
        (pts : List (ℕ × ℕ)) (t : ℕ),
      rowsFor (weightedTopicRows ref pubs snaps pts) t = [] →
      List.lookup t (topicSnapshotRows ref pubs snaps pts) = none) ∧
    (∀ (ref : CivilDate) (pubs : List Publication) (snaps : List (ℕ × ℝ))
        (pts : List (ℕ × ℕ)) (r : TopicRow),
      r ∈ weightedTopicRows ref pubs snaps pts →
      ∃ p ∈ pubs, p.id = r.pid ∧ r.recencyW = recencyWeight ref p.datePublished ∧
        r.qualityW = qualityWeight r.score) := by
  refine ⟨?_, by norm_num [volumeBonus], by norm_num [volumeBonus], ?_, ?_⟩
  · intro ref pubs snaps pts t hne
    obtain ⟨r, hr⟩ := List.exists_mem_of_ne_nil _ hne
    unfold rowsFor at hr
    rw [List.mem_filter] at hr
    have ht : t ∈ (weightedTopicRows ref pubs snaps pts).map TopicRow.tid := by
      rw [List.mem_map]
      exact ⟨r, hr.1, by simpa using hr.2⟩
    unfold topicSnapshotRows
    rw [lookup_map_key (topicValue (weightedTopicRows ref pubs snaps pts))
      (mem_distinctL.mpr ht)]
    rfl
  · intro ref pubs snaps pts t hempty
    have ht : t ∉ (weightedTopicRows ref pubs snaps pts).map TopicRow.tid := by
      rw [List.mem_map]
      rintro ⟨r, hr, hrt⟩
      have : r ∈ rowsFor (weightedTopicRows ref pubs snaps pts) t := by
        unfold rowsFor
        rw [List.mem_filter]
        exact ⟨hr, by simp [hrt]⟩
      rw [hempty] at this
      cases this
    unfold topicSnapshotRows
    exact lookup_map_key_none _ (fun hx => ht (mem_distinctL.mp hx))
  · intro ref pubs snaps pts r hr
    unfold weightedTopicRows at hr
    rw [List.mem_filterMap] at hr
    obtain ⟨pt, _, hpt⟩ := hr
    cases hfp : pubs.find? (fun p => p.id == pt.1) with
    | none => rw [hfp] at hpt; cases hpt
    | some p =>
      rw [hfp, Option.some_bind] at hpt
      cases hfs : snaps.find? (fun s => s.1 == pt.1) with
      | none => rw [hfs] at hpt; cases hpt
      | some s =>
        rw [hfs, Option.map_some'] at hpt
        have hre := Option.some_inj.mp hpt
        subst hre
        refine ⟨p, List.mem_of_find?_eq_some hfp, ?_, rfl, rfl⟩
        have := List.find?_some hfp
        simpa using this

/-- Witness for `topic_rollup_spec` on a one-topic, one-publication state
plus an absent topic. -/
theorem topic_rollup_spec_witness :
    (List.lookup 7 (topicSnapshotRows ⟨2025, 1, 1⟩
        [⟨1, none, none, some ⟨2024, 6, 1⟩, 0⟩] [(1, 2)] [(1, 7)]) =
      some (((rowsFor (weightedTopicRows ⟨2025, 1, 1⟩
            [⟨1, none, none, some ⟨2024, 6, 1⟩, 0⟩] [(1, 2)] [(1, 7)]) 7).map
          (fun r => r.score * r.recencyW * r.qualityW)).sum /
        ((rowsFor (weightedTopicRows ⟨2025, 1, 1⟩
            [⟨1, none, none, some ⟨2024, 6, 1⟩, 0⟩] [(1, 2)] [(1, 7)]) 7).map
          (fun r => r.recencyW * r.qualityW)).sum *
        volumeBonus (rowsFor (weightedTopicRows ⟨2025, 1, 1⟩
            [⟨1, none, none, some ⟨2024, 6, 1⟩, 0⟩] [(1, 2)] [(1, 7)]) 7).length)) ∧
    List.lookup 9 (topicSnapshotRows ⟨2025, 1, 1⟩
        [⟨1, none, none, some ⟨2024, 6, 1⟩, 0⟩] [(1, 2)] [(1, 7)]) = none :=
  ⟨topic_rollup_spec.1 _ _ _ _ 7
      (by simp [rowsFor, weightedTopicRows, List.find?]),
   topic_rollup_spec.2.2.2.1 _ _ _ _ 9
      (by simp [rowsFor, weightedTopicRows, List.find?])⟩

/-! ## Researcher rollups (`calculateSmartWeightedAverages`,
`processUserSnapshots`, `processHistoricalUserSnapshots`) -/

/-- Base weight of `calculateSmartWeightedAverages` as a function of
`age_months` (the SQL's `age_years` equals `age_months / 12`): ramp from
`MIN_WEIGHT = 0.2`, peak while `age_years <= PEAK_YEARS = 3`, then
half-life-`DECAY_HALF_LIFE = 5` decay floored at
`OLD_PAPER_MIN_WEIGHT = 0.1`. -/
noncomputable def smartBaseWeight (m : ℕ) : ℝ :=
  if m ≤ 24 then 0.2 + (1 - 0.2) * ((m : ℝ) / 24)
  else if (m : ℝ) / 12 ≤ 3 then 1
  else max 0.1 ((0.5 : ℝ) ^ (((m : ℝ) / 12 - 3) / 5))

/-- `citation_performance`: `LEAST(1, citations / (age_years * 2))`, zero
for a zero-month-old publication. -/
noncomputable def citationPerformance (m cc : ℕ) : ℝ :=
  if m = 0 then 0 else min 1 ((cc : ℝ) / ((m : ℝ) / 12 * 2))

/-- Final weight: `LEAST(1, base + 0.3 * performance * base)`. -/
noncomputable def smartWeight (m cc : ℕ) : ℝ :=
  min 1 (smartBaseWeight m + 0.3 * citationPerformance m cc * smartBaseWeight m)

/-- The three-phase weight curve exactly as the specification words it:
linear ramp from floor 0.2 to 1.0 over the first 24 months, constant 1.0
from 24 to 36 months, then half-life-5-year decay floored at 0.1, plus a
citation bonus `min(1, citations / (ageYears * 2))` scaled by 0.3 and
blended into the base weight, capped at 1.0 total. -/
noncomputable def specSmoothWeight (m cc : ℕ) : ℝ :=
  let ageYears : ℝ := (m : ℝ) / 12
  let base : ℝ :=
    if m ≤ 24 then 0.2 + (1 - 0.2) * ((m : ℝ) / 24)
    else if m ≤ 36 then 1
    else max 0.1 ((1 / 2 : ℝ) ^ ((ageYears - 3) / 5))
  let bonus : ℝ := if m = 0 then 0 else min 1 ((cc : ℝ) / (ageYears * 2))
  min 1 (base + 0.3 * bonus * base)

/-- One row of the current-path `smart_weighted_publications` table:
publication snapshot score, age in whole months at the snapshot date, and
non-self citation count at that date. -/
structure SmartRow where
  pid : ℕ
  score : ℝ
  months : ℕ
  citcount : ℕ

/-- `smart_weighted_publications` built from publications having a
snapshot at date `S` and a non-null publication date `<= S`. -/
noncomputable def smartRows (S : CivilDate) (pubs : List Publication)
    (snaps : List (ℕ × ℝ)) (cits : List Citation) : List SmartRow :=
  pubs.filterMap (fun p =>
    match p.datePublished with
    | none => none
    | some dp =>
      if dp.leB S then
        (snaps.find? (fun s => s.1 == p.id)).map (fun s =>
          { pid := p.id, score := s.2, months := (monthsBetween S dp).toNat,
            citcount := (cits.filter
              (fun c => c.pubId == p.id && !c.authorSc && optLeB c.creationDate S)).length })
      else none)

/-- `UserOverallSnapshot` mean of the current path: smart weights over the
user's rows (`SUM(value * weight) / SUM(weight)`). -/
noncomputable def userOverallRollupValue (S : CivilDate) (pubs : List Publication)
    (snaps : List (ℕ × ℝ)) (cits : List Citation) (pubUsers : List (ℕ × ℕ))
    (uid : ℕ) : ℝ :=
  let g := (smartRows S pubs snaps cits).filter
    (fun r => pubUsers.any (fun pu => pu.1 == r.pid && pu.2 == uid))
  (g.map (fun r => r.score * smartWeight r.months r.citcount)).sum /
    (g.map (fun r => smartWeight r.months r.citcount)).sum

/-- `UserTopicSnapshot` mean of the current path, over the user's rows in
one topic, with the same smart weights. -/
noncomputable def userTopicRollupValue (S : CivilDate) (pubs : List Publication)
    (snaps : List (ℕ × ℝ)) (cits : List Citation)
    (pubUsers pubTopics : List (ℕ × ℕ)) (uid tid : ℕ) : ℝ :=
  let g := (smartRows S pubs snaps cits).filter
    (fun r => pubUsers.any (fun pu => pu.1 == r.pid && pu.2 == uid) &&
      pubTopics.any (fun pt => pt.1 == r.pid && pt.2 == tid))
  (g.map (fun r => r.score * smartWeight r.months r.citcount)).sum /
    (g.map (fun r => smartWeight r.months r.citcount)).sum

/-- Recency multiplier of `processHistoricalUserSnapshots`: ×1.5 within 2
years of the historical date, else ×1.0. -/
noncomputable def histRecencyWeight (D : CivilDate) (dp : Option CivilDate) : ℝ :=
  match dp with
  | some d => if (subYears D 2).le d then 1.5 else 1
  | none => 1

/-- Quality multiplier of `processHistoricalUserSnapshots`: ×1.3 for a
score `>= 5.0`, else ×1.0. -/
noncomputable def histQualityWeight (s : ℝ) : ℝ := if 5 ≤ s then 1.3 else 1

/-- One row of `historical_user_weighted_publications`. -/
structure HistUserRow where
  pid : ℕ
  uid : ℕ
  tid : ℕ
  score : ℝ
  recencyW : ℝ
  qualityW : ℝ

/-- `historical_user_weighted_publications`: publications with a snapshot
at the chosen snapshot date, published on or before the historical date,
joined to both bridge tables, with the discrete recency and quality
multipliers. -/
noncomputable def histUserRows (D : CivilDate) (pubs : List Publication)
    (snaps : List (ℕ × ℝ)) (pubUsers pubTopics : List (ℕ × ℕ)) : List HistUserRow :=
  pubUsers.flatMap (fun pu =>
    pubTopics.filterMap (fun pt =>
      if pt.1 == pu.1 then
        (pubs.find? (fun p => p.id == pu.1)).bind (fun p =>
          if optLeB p.datePublished D then
            (snaps.find? (fun s => s.1 == pu.1)).map (fun s =>
              { pid := pu.1, uid := pu.2, tid := pt.2, score := s.2,
                recencyW := histRecencyWeight D p.datePublished,
                qualityW := histQualityWeight s.2 })
          else none)
      else none))

/-- Historical `UserOverallSnapshot` mean for `uid`
(`SUM(score * recency * quality) / SUM(recency * quality)`). -/
noncomputable def histUserOverallValue (D : CivilDate) (pubs : List Publication)
    (snaps : List (ℕ × ℝ)) (pubUsers pubTopics : List (ℕ × ℕ)) (uid : ℕ) : ℝ :=
  let g := (histUserRows D pubs snaps pubUsers pubTopics).filter
    (fun r => r.uid == uid)
  (g.map (fun r => r.score * r.recencyW * r.qualityW)).sum /
    (g.map (fun r => r.recencyW * r.qualityW)).sum

/-- C5 counterexample: on a concrete state (one researcher, two
publications aged 0 and 12 months with snapshot scores 0 and 4, no
citations), the historical researcher rollup written by
`processHistoricalUserSnapshots` yields mean 2, while the smooth
three-phase weighting claimed for it (and used by the current-path
rollup) yields mean 3 — the historical researcher rollup does not follow
the smooth curve. -/
theorem researcher_rollup_weight_cex :
    histUserOverallValue ⟨2020, 6, 15⟩
        [⟨1, none, none, some ⟨2020, 6, 15⟩, 0⟩, ⟨2, none, none, some ⟨2019, 6, 15⟩, 0⟩]
        [(1, 0), (2, 4)] [(1, 1), (2, 1)] [(1, 7), (2, 7)] 1 ≠
      userOverallRollupValue ⟨2020, 6, 15⟩
        [⟨1, none, none, some ⟨2020, 6, 15⟩, 0⟩, ⟨2, none, none, some ⟨2019, 6, 15⟩, 0⟩]
        [(1, 0), (2, 4)] [] [(1, 1), (2, 1)] 1 := by
  have hr1 : histRecencyWeight ⟨2020, 6, 15⟩ (some ⟨2020, 6, 15⟩) = 1.5 := by
    unfold histRecencyWeight subYears
    dsimp only
    rw [if_pos (by decide)]
  have hr2 : histRecencyWeight ⟨2020, 6, 15⟩ (some ⟨2019, 6, 15⟩) = 1.5 := by
    unfold histRecencyWeight subYears
    dsimp only
    rw [if_pos (by decide)]
  have hb1 : (decide ((CivilDate.mk 2020 6 15).le (CivilDate.mk 2020 6 15))) = true := by
    decide
  have hb2 : (decide ((CivilDate.mk 2019 6 15).le (CivilDate.mk 2020 6 15))) = true := by
    decide
  have hp1 : ((CivilDate.mk 2020 6 15).le (CivilDate.mk 2020 6 15)) := by decide
  have hp2 : ((CivilDate.mk 2019 6 15).le (CivilDate.mk 2020 6 15)) := by decide
  have hq1 : histQualityWeight 0 = 1 := by
    unfold histQualityWeight
    rw [if_neg (by norm_num)]
  have hq2 : histQualityWeight 4 = 1 := by
    unfold histQualityWeight
    rw [if_neg (by norm_num)]
  have hm1 : (monthsBetween ⟨2020, 6, 15⟩ ⟨2020, 6, 15⟩).toNat = 0 := by decide
  have hm2 : (monthsBetween ⟨2020, 6, 15⟩ ⟨2019, 6, 15⟩).toNat = 12 := by decide
  have hw1 : smartWeight 0 0 = 0.2 := by
    unfold smartWeight smartBaseWeight citationPerformance
    norm_num [min_def]
  have hw2 : smartWeight 12 0 = 0.6 := by
    unfold smartWeight smartBaseWeight citationPerformance
    norm_num [min_def]
  have hL : histUserOverallValue ⟨2020, 6, 15⟩
      [⟨1, none, none, some ⟨2020, 6, 15⟩, 0⟩, ⟨2, none, none, some ⟨2019, 6, 15⟩, 0⟩]
      [(1, 0), (2, 4)] [(1, 1), (2, 1)] [(1, 7), (2, 7)] 1 = 2 := by
    simp [histUserOverallValue, histUserRows, List.find?, optLeB, CivilDate.leB,
      hb1, hb2, hp1, hp2, hr1, hr2, hq1, hq2]
    norm_num
  have hR : userOverallRollupValue ⟨2020, 6, 15⟩
      [⟨1, none, none, some ⟨2020, 6, 15⟩, 0⟩, ⟨2, none, none, some ⟨2019, 6, 15⟩, 0⟩]
      [(1, 0), (2, 4)] [] [(1, 1), (2, 1)] 1 = 3 := by
    simp [userOverallRollupValue, smartRows, List.find?, CivilDate.leB,
      hb1, hb2, hp1, hp2, hm1, hm2, hw1, hw2]
    norm_num
  rw [hL, hR]
  norm_num

/-- C5 (amended): the smooth three-phase weight (ramp floor 0.2 to 1.0
over 24 months, peak to 36 months, half-life-5-year decay floored at 0.1,
citation bonus `min(1, citations/(ageYears*2))` scaled by 0.3 and capped
at 1.0) is exactly the weight of the current-date researcher rollups
(overall and per-topic alike); the historical researcher rollup instead
weights each publication by discrete multipliers, ×1.5 or ×1.0 for
recency and ×1.3 or ×1.0 for quality. -/
theorem researcher_rollup_weight_amended :
    (∀ m cc : ℕ, smartWeight m cc = specSmoothWeight m cc) ∧
    (∀ (D : CivilDate) (pubs : List Publication) (snaps : List (ℕ × ℝ))
        (pubUsers pubTopics : List (ℕ × ℕ)) (r : HistUserRow),
      r ∈ histUserRows D pubs snaps pubUsers pubTopics →
      (r.recencyW = 1.5 ∨ r.recencyW = 1) ∧ (r.qualityW = 1.3 ∨ r.qualityW = 1)) := by
  constructor
  · intro m cc
    have hbase : smartBaseWeight m =
        (if m ≤ 24 then 0.2 + (1 - 0.2) * ((m : ℝ) / 24)
         else if m ≤ 36 then 1
         else max 0.1 ((1 / 2 : ℝ) ^ (((m : ℝ) / 12 - 3) / 5))) := by
      unfold smartBaseWeight
      by_cases h24 : m ≤ 24
      · rw [if_pos h24, if_pos h24]
      · rw [if_neg h24, if_neg h24]
        have hiff : ((m : ℝ) / 12 ≤ 3) ↔ (m ≤ 36) := by
          rw [div_le_iff₀ (by norm_num : (0 : ℝ) < 12)]
          constructor
          · intro h
            have h36 : (m : ℝ) ≤ 36 := by linarith
            exact_mod_cast h36
          · intro h
            have h36 : (m : ℝ) ≤ 36 := by exact_mod_cast h
            linarith
        by_cases h36 : m ≤ 36
        · rw [if_pos (hiff.mpr h36), if_pos h36]
        · rw [if_neg (fun hh => h36 (hiff.mp hh)), if_neg h36]
          norm_num
    unfold smartWeight specSmoothWeight citationPerformance
    rw [hbase]
  · intro D pubs snaps pubUsers pubTopics r hr
    unfold histUserRows at hr
    rw [List.mem_flatMap] at hr
    obtain ⟨pu, _, hr2⟩ := hr
    rw [List.mem_filterMap] at hr2
    obtain ⟨pt, _, hpt⟩ := hr2
    by_cases hid : (pt.1 == pu.1) = true
    · rw [if_pos hid] at hpt
      cases hfp : pubs.find? (fun p => p.id == pu.1) with
      | none => rw [hfp] at hpt; cases hpt
      | some p =>
        rw [hfp, Option.some_bind] at hpt
        by_cases hdp : optLeB p.datePublished D = true
        · rw [if_pos hdp] at hpt
          cases hfs : snaps.find? (fun s => s.1 == pu.1) with
          | none => rw [hfs] at hpt; cases hpt
          | some s =>
            rw [hfs, Option.map_some'] at hpt
            have hre := Option.some_inj.mp hpt
            subst hre
            constructor
            · show histRecencyWeight D p.datePublished = 1.5 ∨
                histRecencyWeight D p.datePublished = 1
              unfold histRecencyWeight
              cases p.datePublished with
              | none => exact Or.inr rfl
              | some d =>
                by_cases hle : (subYears D 2).le d
                · exact Or.inl (by dsimp only; rw [if_pos hle])
                · exact Or.inr (by dsimp only; rw [if_neg hle])
            · show histQualityWeight s.2 = 1.3 ∨ histQualityWeight s.2 = 1
              unfold histQualityWeight
              by_cases hle : (5 : ℝ) ≤ s.2
              · exact Or.inl (by rw [if_pos hle])
              · exact Or.inr (by rw [if_neg hle])
        · rw [if_neg hdp] at hpt; cases hpt
    · rw [if_neg hid] at hpt; cases hpt

/-- Witness for `researcher_rollup_weight_amended`: the curve equality at
a concrete age and citation count, and the discrete weights of a concrete
historical rollup row. -/
theorem researcher_rollup_weight_amended_witness :
    smartWeight 13 2 = specSmoothWeight 13 2 ∧
    ((HistUserRow.mk 1 1 7 0
        (histRecencyWeight ⟨2020, 6, 15⟩ (some ⟨2020, 6, 15⟩))
        (histQualityWeight 0)).recencyW = 1.5 ∨
      (HistUserRow.mk 1 1 7 0
        (histRecencyWeight ⟨2020, 6, 15⟩ (some ⟨2020, 6, 15⟩))
        (histQualityWeight 0)).recencyW = 1) ∧
    ((HistUserRow.mk 1 1 7 0
        (histRecencyWeight ⟨2020, 6, 15⟩ (some ⟨2020, 6, 15⟩))
        (histQualityWeight 0)).qualityW = 1.3 ∨
      (HistUserRow.mk 1 1 7 0
        (histRecencyWeight ⟨2020, 6, 15⟩ (some ⟨2020, 6, 15⟩))
        (histQualityWeight 0)).qualityW = 1) := by
  refine ⟨researcher_rollup_weight_amended.1 13 2, ?_⟩
  have h := researcher_rollup_weight_amended.2 ⟨2020, 6, 15⟩
    [⟨1, none, none, some ⟨2020, 6, 15⟩, 0⟩] [(1, 0)] [(1, 1)] [(1, 7)]
    (HistUserRow.mk 1 1 7 0
      (histRecencyWeight ⟨2020, 6, 15⟩ (some ⟨2020, 6, 15⟩))
      (histQualityWeight 0))
    (by
      simp [histUserRows, List.find?, optLeB, CivilDate.leB,
        (by decide : ((CivilDate.mk 2020 6 15).le (CivilDate.mk 2020 6 15)))]
      )
  exact h

/-! ## Citation ingestion (`PointSystemInitializationJob.perform`) -/

/-- A record from the citation fetcher; `authorSc` models
`author_sc === 'yes'`. -/
structure OCitRecord where
  creation : Option CivilDate
  authorSc : Bool
deriving DecidableEq, Repr

/-- `citationRecords = raw.filter((r) => r.author_sc !== 'yes')`: the rows
kept (and later inserted) for a publication. -/
def initCitationRecords (raw : List OCitRecord) : List OCitRecord :=
  raw.filter (fun r => !r.authorSc)

/-- `citationCount = citationRecords.length`: the cached
`Publication.citation_count` stored at insertion. -/
def initCitationCount (raw : List OCitRecord) : ℕ :=
  (initCitationRecords raw).length

theorem filter_comm_bool {α : Type} (p q : α → Bool) (l : List α) :
    (l.filter p).filter q = (l.filter q).filter p := by
  rw [List.filter_filter, List.filter_filter]
  exact List.filter_congr (fun x _ => Bool.and_comm _ _)

theorem sum_map_filter_not_self {α : Type} (g : α → ℝ) (sc : α → Bool) (l : List α)
    (hv : ∀ x ∈ l, sc x = true → g x = 0) :
    (l.map g).sum = ((l.filter (fun x => !sc x)).map g).sum := by
  induction l with
  | nil => rfl
  | cons a t ih =>
    have iht := ih (fun x hx => hv x (List.mem_cons_of_mem a hx))
    rw [List.filter_cons]
    cases hsc : sc a
    · rw [if_pos (by simp [hsc])]
      simp only [List.map_cons, List.sum_cons, iht]
    · rw [if_neg (by simp [hsc])]
      simp only [List.map_cons, List.sum_cons,
        hv a (List.mem_cons_self a t) hsc, iht]
      ring

theorem histCitTerm_self (dl : ℤ → Option ℝ) (D : CivilDate) (cv : Option ℝ)
    (dp : CivilDate) (c : Citation) (hs : c.authorSc = true) :
    histCitTerm dl D cv dp c = 0 := by
  unfold histCitTerm
  cases c.creationDate with
  | none => cases cv <;> rfl
  | some cd =>
    cases cv with
    | none => rfl
    | some v => simp [hs]

/-- C7: self-citations never count: the ingestion job caches
`citation_count` as the number of non-self fetched records (5 fetched, 2
self → stored count 3) and keeps only non-self rows; and in both the
current and the historical score calculation a self-citation contributes
exactly 0, so the decayed-citation sum equals its restriction to the
non-self rows. -/
theorem self_citation_exclusion :
    initCitationCount [⟨some ⟨2023, 1, 1⟩, false⟩, ⟨some ⟨2023, 2, 1⟩, true⟩,
      ⟨some ⟨2023, 3, 1⟩, false⟩, ⟨some ⟨2023, 4, 1⟩, true⟩,
      ⟨some ⟨2023, 5, 1⟩, false⟩] = 3 ∧
    (∀ raw : List OCitRecord, ∀ r ∈ initCitationRecords raw, r.authorSc = false) ∧
    (∀ (dl : ℤ → Option ℝ) (now : CivilDate) (ev : ℝ) (dp : CivilDate) (c : Citation),
      c.authorSc = true → decayedCitationTerm dl now ev dp c = 0) ∧
    (∀ (dl : ℤ → Option ℝ) (now : CivilDate) (ev : ℝ) (dp : CivilDate) (pid : ℕ)
        (cits : List Citation),
      decayedCitationsList dl now ev dp pid cits =
        decayedCitationsList dl now ev dp pid
          (cits.filter (fun c => !c.authorSc))) ∧
    (∀ (dl : ℤ → Option ℝ) (D : CivilDate) (cv : Option ℝ) (dp : CivilDate)
        (c : Citation),
      c.authorSc = true → histCitTerm dl D cv dp c = 0) := by
  refine ⟨by decide, ?_, decayedCitationTerm_self, ?_, histCitTerm_self⟩
  · intro raw r hr
    unfold initCitationRecords at hr
    rw [List.mem_filter] at hr
    simpa using hr.2
  · intro dl now ev dp pid cits
    unfold decayedCitationsList
    rw [filter_comm_bool (fun c : Citation => !c.authorSc)
      (fun c : Citation => c.pubId == pid) cits]
    exact sum_map_filter_not_self _ Citation.authorSc _
      (fun x _ hx => decayedCitationTerm_self dl now ev dp x hx)

/-- Witness for `self_citation_exclusion` at concrete rows. -/
theorem self_citation_exclusion_witness :
    ((OCitRecord.mk (some ⟨2023, 1, 1⟩) false).authorSc = false) ∧
    decayedCitationTerm decayLookup ⟨2023, 6, 1⟩ 3 ⟨2023, 1, 1⟩
      ⟨1, some ⟨2023, 2, 1⟩, true⟩ = 0 ∧
    histCitTerm decayLookup ⟨2023, 6, 1⟩ (some 3) ⟨2023, 1, 1⟩
      ⟨1, some ⟨2023, 2, 1⟩, true⟩ = 0 :=
  ⟨self_citation_exclusion.2.1 [⟨some ⟨2023, 1, 1⟩, false⟩] _ (by decide),
   self_citation_exclusion.2.2.1 decayLookup ⟨2023, 6, 1⟩ 3 ⟨2023, 1, 1⟩ _ rfl,
   self_citation_exclusion.2.2.2.2 decayLookup ⟨2023, 6, 1⟩ (some 3) ⟨2023, 1, 1⟩ _ rfl⟩

/-! ## Snapshot dates (`dateUtils.ts` and the historical snapshot writer) -/

/-- Calendar date from an epoch day count (the inverse conversion the JS
`Date` runtime performs), valid for the range used here. -/
def daysToCivil (z : ℕ) : ℕ × ℕ × ℕ :=
  let z2 := z + 719468
  let era := z2 / 146097
  let doe := z2 % 146097
  let yoe := (doe - doe / 1460 + doe / 36524 - doe / 146096) / 365
  let y := yoe + era * 400
  let doy := doe - (365 * yoe + yoe / 4 - yoe / 100)
  let mp := (5 * doy + 2) / 153
  let d := doy - (153 * mp + 2) / 5 + 1
  let m := if mp < 10 then mp + 3 else mp - 9
  (if m ≤ 2 then y + 1 else y, m, d)

/-- `getConsistentDateForDB`: midnight UTC on the FIRST day of the month
of the given date (`Date.UTC(year, month, 1, 0, 0, 0, 0)`). -/
def getConsistentDateForDB (z : ℕ) : ℕ :=
  daysFromCivil (daysToCivil z).1 (daysToCivil z).2.1 1

/-- The `snapshot_date` stored by the historical snapshot writer for a
sequence date: it inserts `${consistentDate}` from `getConsistentDateForDB`. -/
def storedHistoricalSnapshotDate (z : ℕ) : ℕ := getConsistentDateForDB z

/-- First Monday on or after `d` (`getUTCDay()` of epoch day `d` is
`(d + 4) % 7`; the generator adds `day == 0 ? 1 : 8 - day` when `d` is not
a Monday). -/
def nextMondayOnOrAfter (d : ℕ) : ℕ :=
  if (d + 4) % 7 = 1 then d
  else d + (if (d + 4) % 7 = 0 then 1 else 8 - (d + 4) % 7)

/-- `generateMondaySequence`: Mondays from the first Monday on or after
`s` through `e`, stepping 7 days. -/
def generateMondaySequence (s e : ℕ) : List ℕ :=
  if nextMondayOnOrAfter s ≤ e then
    (List.range ((e - nextMondayOnOrAfter s) / 7 + 1)).map
      (fun k => nextMondayOnOrAfter s + 7 * k)
  else []

/-- C4 counterexample: Monday 2025-05-26 belongs to the weekly sequence
from 2025-05-20 to 2025-06-02, yet the stored snapshot date for it is
2025-05-01, not the Monday itself. -/
theorem snapshot_date_cex :
    daysFromCivil 2025 5 26 ∈
      generateMondaySequence (daysFromCivil 2025 5 20) (daysFromCivil 2025 6 2) ∧
    storedHistoricalSnapshotDate (daysFromCivil 2025 5 26) ≠ daysFromCivil 2025 5 26 ∧
    storedHistoricalSnapshotDate (daysFromCivil 2025 5 26) = daysFromCivil 2025 5 1 := by
  decide

/-- C4 (amended): every date produced by the weekly generator is a Monday
(UTC day-of-week 1), but the snapshot rows store `getConsistentDateForDB`
of the sequence date — midnight UTC on the first day of that date's month
— rather than the sequence date itself; for Monday 2025-05-26 the stored
date is 2025-05-01. -/
theorem snapshot_date_amended :
    (∀ s e d : ℕ, d ∈ generateMondaySequence s e → (d + 4) % 7 = 1) ∧
    (∀ d : ℕ, storedHistoricalSnapshotDate d =
      daysFromCivil (daysToCivil d).1 (daysToCivil d).2.1 1) ∧
    storedHistoricalSnapshotDate (daysFromCivil 2025 5 26) = daysFromCivil 2025 5 1 := by
  refine ⟨?_, fun d => rfl, by decide⟩
  intro s e d hd
  unfold generateMondaySequence at hd
  by_cases hle : nextMondayOnOrAfter s ≤ e
  · rw [if_pos hle] at hd
    rw [List.mem_map] at hd
    obtain ⟨k, _, hk⟩ := hd
    subst hk
    have hm : (nextMondayOnOrAfter s + 4) % 7 = 1 := by
      unfold nextMondayOnOrAfter
      by_cases h1 : (s + 4) % 7 = 1
      · rw [if_pos h1]
        exact h1
      · rw [if_neg h1]
        by_cases h0 : (s + 4) % 7 = 0
        · rw [if_pos h0]
          omega
        · rw [if_neg h0]
          omega
    omega
  · rw [if_neg hle] at hd
    cases hd

/-- Witness for `snapshot_date_amended` at the concrete weekly sequence. -/
theorem snapshot_date_amended_witness :
    (daysFromCivil 2025 5 26 + 4) % 7 = 1 :=
  snapshot_date_amended.1 (daysFromCivil 2025 5 20) (daysFromCivil 2025 6 2)
    (daysFromCivil 2025 5 26) (by decide)

/-- Witness for `stale_metrics_frame`: a user whose only publication has
zero citations and a venue with no publications keep their stored values. -/
theorem stale_metrics_frame_witness :
    hIndexStep ⟨[⟨1, 5⟩], [⟨99, 7⟩], [⟨1, some 50, none, none, 0⟩], [], [(1, 1)]⟩
        ⟨1, 5⟩ = ⟨1, 5⟩ ∧
    confValueStep ⟨[⟨1, 5⟩], [⟨99, 7⟩], [⟨1, some 50, none, none, 0⟩], [], [(1, 1)]⟩
        ⟨99, 7⟩ = ⟨99, 7⟩ :=
  ⟨stale_metrics_frame.1 _ _ (by decide),
   stale_metrics_frame.2 _ _ (by decide)⟩

/-! ## Snapshot upsert (`ON CONFLICT ... DO UPDATE SET value = EXCLUDED.value`) -/

/-- Upsert of one row into a keyed table: overwrite the value at an
existing key, else append the row. -/
def upsertRow {κ α : Type} [DecidableEq κ] (t : List (κ × α)) (k : κ) (v : α) :
    List (κ × α) :=
  if k ∈ t.map Prod.fst then
    t.map (fun p => if p.1 = k then (k, v) else p)
  else t ++ [(k, v)]

/-- Upsert of a computed row set (one bulk `INSERT ... ON CONFLICT`). -/
def upsertMany {κ α : Type} [DecidableEq κ] (t rows : List (κ × α)) :
    List (κ × α) :=
  rows.foldl (fun acc r => upsertRow acc r.1 r.2) t

/-- Value stored at key `k`. -/
def lookupVal {κ α : Type} [DecidableEq κ] (k : κ) (t : List (κ × α)) : Option α :=
  (t.find? (fun p => decide (p.1 = k))).map Prod.snd

theorem keys_upsertRow {κ α : Type} [DecidableEq κ] (t : List (κ × α)) (k : κ) (v : α) :
    (upsertRow t k v).map Prod.fst =
      if k ∈ t.map Prod.fst then t.map Prod.fst else t.map Prod.fst ++ [k] := by
  unfold upsertRow
  by_cases h : k ∈ t.map Prod.fst
  · rw [if_pos h, if_pos h, List.map_map]
    refine List.map_congr_left ?_
    intro p _
    by_cases hp : p.1 = k
    · simp [hp]
    · simp [hp]
  · rw [if_neg h, if_neg h, List.map_append]
    rfl

theorem nodup_keys_upsertRow {κ α : Type} [DecidableEq κ] {t : List (κ × α)}
    (k : κ) (v : α) (h : (t.map Prod.fst).Nodup) :
    ((upsertRow t k v).map Prod.fst).Nodup := by
  rw [keys_upsertRow]
  by_cases hm : k ∈ t.map Prod.fst
  · rw [if_pos hm]; exact h
  · rw [if_neg hm]
    rw [List.nodup_append]
    exact ⟨h, List.nodup_singleton k, by
      intro a ha hb
      rw [List.mem_singleton] at hb
      subst hb
      exact hm ha⟩

theorem find_map_replace {κ α : Type} [DecidableEq κ] {t : List (κ × α)} {k : κ} (v : α)
    (h : k ∈ t.map Prod.fst) :
    (t.map (fun p => if p.1 = k then (k, v) else p)).find?
      (fun p => decide (p.1 = k)) = some (k, v) := by
  induction t with
  | nil => cases h
  | cons p t ih =>
    by_cases hp : p.1 = k
    · simp [List.find?, hp]
    · have hmem : k ∈ t.map Prod.fst := by
        rcases List.mem_cons.mp h with h1 | h1
        · exact absurd h1.symm hp
        · exact h1
      simp only [List.map_cons, List.find?, if_neg hp]
      rw [decide_eq_false hp]
      exact ih hmem

theorem find_none_of_not_mem {κ α : Type} [DecidableEq κ] {t : List (κ × α)} {k : κ}
    (h : k ∉ t.map Prod.fst) :
    t.find? (fun p => decide (p.1 = k)) = none := by
  rw [List.find?_eq_none]
  intro p hp
  simp only [decide_eq_true_eq]
  intro hk
  exact h (List.mem_map.mpr ⟨p, hp, hk⟩)

theorem lookupVal_upsertRow_self {κ α : Type} [DecidableEq κ] (t : List (κ × α))
    (k : κ) (v : α) : lookupVal k (upsertRow t k v) = some v := by
  unfold lookupVal upsertRow
  by_cases h : k ∈ t.map Prod.fst
  · rw [if_pos h, find_map_replace v h]
    rfl
  · rw [if_neg h, List.find?_append, find_none_of_not_mem h]
    simp [List.find?]

theorem find_map_replace_other {κ α : Type} [DecidableEq κ] {k k2 : κ} (v : α)
    (hne : k2 ≠ k) :
    ∀ t : List (κ × α),
      (t.map (fun p => if p.1 = k then (k, v) else p)).find?
          (fun p => decide (p.1 = k2)) =
        t.find? (fun p => decide (p.1 = k2)) := by
  intro t
  induction t with
  | nil => rfl
  | cons p t ih =>
    by_cases hp : p.1 = k
    · have h1 : (decide ((k : κ) = k2)) = false :=
        decide_eq_false (fun hh => hne hh.symm)
      have h2 : (decide (p.1 = k2)) = false :=
        decide_eq_false (fun hh => hne (by rw [← hh, hp]))
      simp only [List.map_cons, List.find?, if_pos hp, h1, h2]
      exact ih
    · cases hd : decide (p.1 = k2) with
      | false =>
        simp only [List.map_cons, List.find?, if_neg hp, hd]
        exact ih
      | true =>
        simp only [List.map_cons, List.find?, if_neg hp, hd]

theorem lookupVal_upsertRow_other {κ α : Type} [DecidableEq κ] (t : List (κ × α))
    {k k2 : κ} (v : α) (hne : k2 ≠ k) :
    lookupVal k2 (upsertRow t k v) = lookupVal k2 t := by
  unfold lookupVal upsertRow
  by_cases h : k ∈ t.map Prod.fst
  · rw [if_pos h]
    rw [find_map_replace_other v hne t]
  · rw [if_neg h, List.find?_append]
    have hlast : ([(k, v)] : List (κ × α)).find? (fun p => decide (p.1 = k2)) = none := by
      simp [List.find?, decide_eq_false (fun hh : k = k2 => hne hh.symm)]
    rw [hlast]
    cases t.find? (fun p => decide (p.1 = k2)) <;> rfl

theorem nodup_keys_upsertMany {κ α : Type} [DecidableEq κ] (rows : List (κ × α)) :
    ∀ t : List (κ × α), (t.map Prod.fst).Nodup →
      ((upsertMany t rows).map Prod.fst).Nodup := by
  induction rows with
  | nil => exact fun t h => h
  | cons r rest ih =>
    intro t h
    exact ih _ (nodup_keys_upsertRow r.1 r.2 h)

theorem lookupVal_upsertMany_not_mem {κ α : Type} [DecidableEq κ]
    (rows : List (κ × α)) :
    ∀ (t : List (κ × α)) (k : κ), k ∉ rows.map Prod.fst →
      lookupVal k (upsertMany t rows) = lookupVal k t := by
  induction rows with
  | nil => exact fun t k _ => rfl
  | cons r rest ih =>
    intro t k hk
    simp only [List.map_cons, List.mem_cons, not_or] at hk
    obtain ⟨h2, h1⟩ := hk
    exact (ih _ k h1).trans (lookupVal_upsertRow_other t r.2 h2)

theorem lookupVal_upsertMany_mem {κ α : Type} [DecidableEq κ]
    (rows : List (κ × α)) :
    ∀ (t : List (κ × α)) (k : κ) (v : α), (rows.map Prod.fst).Nodup →
      (k, v) ∈ rows → lookupVal k (upsertMany t rows) = some v := by
  induction rows with
  | nil => intro t k v _ h; cases h
  | cons r rest ih =>
    intro t k v hnd hm
    simp only [List.map_cons, List.nodup_cons] at hnd
    rcases List.mem_cons.mp hm with h1 | h1
    · have hk : k ∉ rest.map Prod.fst := by
        have := hnd.1
        rw [← h1] at this
        exact this
      calc lookupVal k (upsertMany (upsertRow t r.1 r.2) rest)
          = lookupVal k (upsertRow t r.1 r.2) :=
            lookupVal_upsertMany_not_mem rest _ k hk
        _ = some v := by rw [← h1]; exact lookupVal_upsertRow_self t k v
    · exact ih _ k v hnd.2 h1

theorem mem_keys_of_lookupVal {κ α : Type} [DecidableEq κ] {t : List (κ × α)}
    {k : κ} {v : α} (h : lookupVal k t = some v) : k ∈ t.map Prod.fst := by
  unfold lookupVal at h
  cases hf : t.find? (fun p => decide (p.1 = k)) with
  | none => rw [hf] at h; cases h
  | some p =>
    have hp := List.find?_some hf
    rw [decide_eq_true_eq] at hp
    exact List.mem_map.mpr ⟨p, List.mem_of_find?_eq_some hf, hp⟩

/-- C8: replaying a computed snapshot row set twice through the
conflict-update upsert (the write pattern of all four snapshot families,
keyed by their unique entity-and-date indexes) never duplicates a key:
keys stay duplicate-free, every written key ends with exactly one row
holding the second run's value, and rows at unwritten keys are untouched. -/
theorem idempotent_upsert {κ α : Type} [DecidableEq κ] (t rows : List (κ × α))
    (hT : (t.map Prod.fst).Nodup) (hR : (rows.map Prod.fst).Nodup) :
    ((upsertMany (upsertMany t rows) rows).map Prod.fst).Nodup ∧
    (∀ k v, (k, v) ∈ rows →
      lookupVal k (upsertMany (upsertMany t rows) rows) = some v ∧
      ((upsertMany (upsertMany t rows) rows).map Prod.fst).count k = 1) ∧
    (∀ k, k ∉ rows.map Prod.fst →
      lookupVal k (upsertMany (upsertMany t rows) rows) = lookupVal k t) := by
  have hnd := nodup_keys_upsertMany rows _ (nodup_keys_upsertMany rows t hT)
  refine ⟨hnd, ?_, ?_⟩
  · intro k v hm
    have hl := lookupVal_upsertMany_mem rows (upsertMany t rows) k v hR hm
    exact ⟨hl, List.count_eq_one_of_mem hnd (mem_keys_of_lookupVal hl)⟩
  · intro k hk
    exact (lookupVal_upsertMany_not_mem rows _ k hk).trans
      (lookupVal_upsertMany_not_mem rows t k hk)

/-- Witness for `idempotent_upsert` on a concrete table and row set. -/
theorem idempotent_upsert_witness :
    lookupVal 2 (upsertMany (upsertMany [(1, 10), (2, 20)] [(2, 99), (3, 7)])
      [(2, 99), (3, 7)]) = some 99 ∧
    ((upsertMany (upsertMany [(1, 10), (2, 20)] [(2, 99), (3, 7)])
      [(2, 99), (3, 7)]).map Prod.fst).count 2 = 1 ∧
    lookupVal 1 (upsertMany (upsertMany [(1, 10), (2, 20)] [(2, 99), (3, 7)])
      [(2, 99), (3, 7)]) = lookupVal 1 [(1, 10), (2, 20)] := by
  have h := idempotent_upsert (κ := ℕ) (α := ℕ) [(1, 10), (2, 20)] [(2, 99), (3, 7)]
    (by decide) (by decide)
  exact ⟨(h.2.1 2 99 (by decide)).1, (h.2.1 2 99 (by decide)).2,
    h.2.2 1 (by decide)⟩
